import Mathlib

/-!
Shallow embedding of the bulk-validation subsystem of the go-playground
repository (`bulkValidateWithWorkerPool`, `validateCustomer`, and the
worker-count clamping in the `POST /customers/bulk-validate` handler).

Go strings are modelled as `List Char`; Go's `len` on a string counts
UTF-8 bytes, modelled by `utf8Length`.  The concurrency of the worker
pool is modelled by an explicit arrival order: the collector receives
the per-job outcomes in an arbitrary order, expressed as a list
`arrivals` that is a permutation of the in-order outcome list.
-/

namespace GoPlayground

/-- Go struct `CustomerPayload { FullName, Email string }`. -/
structure CustomerPayload where
  fullName : List Char
  email : List Char
deriving DecidableEq, Repr

/-- Go struct `ValidateResult { Index int; Email string; Valid bool; Message string }`. -/
structure ValidateResult where
  index : Nat
  email : List Char
  valid : Bool
  message : List Char
deriving DecidableEq, Repr

/-- The Go zero value of `ValidateResult`, as produced by
`make([]ValidateResult, n)` in the collector. -/
def zeroResult : ValidateResult := ⟨0, [], false, []⟩

/-- Go `unicode.IsSpace`: the Unicode White_Space code points
(`\t \n \v \f \r`, space, NEL, NBSP, and the higher space separators). -/
def isGoSpace (c : Char) : Bool :=
  c.toNat == 0x09 || c.toNat == 0x0A || c.toNat == 0x0B || c.toNat == 0x0C ||
  c.toNat == 0x0D || c.toNat == 0x20 || c.toNat == 0x85 || c.toNat == 0xA0 ||
  c.toNat == 0x1680 || (0x2000 ≤ c.toNat && c.toNat ≤ 0x200A) ||
  c.toNat == 0x2028 || c.toNat == 0x2029 || c.toNat == 0x202F ||
  c.toNat == 0x205F || c.toNat == 0x3000

/-- Go `strings.TrimSpace`: drop White_Space characters from both ends. -/
def goTrimSpace (l : List Char) : List Char :=
  ((l.dropWhile isGoSpace).reverse.dropWhile isGoSpace).reverse

/-- Go `strings.ToLower`.  `Char.toLower` applies the ASCII mapping
`'A'..'Z' ↦ 'a'..'z'`; Go applies the Unicode simple lower-case mapping,
which agrees with it on ASCII.  The only use in this program compares the
result against the ASCII suffix `"@example.com"`, and the sole Unicode
code points whose simple lower case is an ASCII letter map to `'i'` and
`'k'`, neither of which occurs in that suffix, so the two mappings are
interchangeable for every check in this development. -/
def goToLower (l : List Char) : List Char := l.map Char.toLower

/-- Number of bytes of the UTF-8 encoding of a string, Go's `len` on a
string value. -/
def utf8Length (l : List Char) : Nat := (l.map Char.utf8Size).sum

/-- The literal `"@example.com"` compared against by `validateCustomer`. -/
def atExampleCom : List Char := "@example.com".toList

/-- Message `"full_name is required"`. -/
def msgFullNameRequired : List Char := "full_name is required".toList

/-- Message `"email is required"`. -/
def msgEmailRequired : List Char := "email is required".toList

/-- Message for an email without an at sign. -/
def msgEmailMustContainAt : List Char := "email must contain '@'".toList

/-- Message `"email too long"`. -/
def msgEmailTooLong : List Char := "email too long".toList

/-- Message `"example.com emails are not allowed"`. -/
def msgExampleNotAllowed : List Char := "example.com emails are not allowed".toList

/-- Go `validateCustomer`: the local variables `name` and `email` of the
source are the trimmed field values, inlined here.  `len(email) > 150`
counts UTF-8 bytes, hence `utf8Length`. -/
def validateCustomer (c : CustomerPayload) : Bool × List Char :=
  if goTrimSpace c.fullName = [] then (false, msgFullNameRequired)
  else if goTrimSpace c.email = [] then (false, msgEmailRequired)
  else if (goTrimSpace c.email).contains '@' = false then (false, msgEmailMustContainAt)
  else if 150 < utf8Length (goTrimSpace c.email) then (false, msgEmailTooLong)
  else if atExampleCom.isSuffixOf (goToLower (goTrimSpace c.email)) then
    (false, msgExampleNotAllowed)
  else (true, [])

/-- Body of one worker iteration for the job `(i, c)`: run the validator
and build the `ValidateResult` sent on the results channel, with
`Email: strings.TrimSpace(j.data.Email)`. -/
def workerOutcome (i : Nat) (c : CustomerPayload) : ValidateResult :=
  ⟨i, goTrimSpace c.email, (validateCustomer c).1, (validateCustomer c).2⟩

/-- The multiset of outcomes produced during one batch call, listed in
job order: the producer goroutine enqueues `job{index: i, data: c}` for
each position, and exactly one worker turns each job into its outcome. -/
def batchOutcomes (customers : List CustomerPayload) : List ValidateResult :=
  customers.enum.map (fun p => workerOutcome p.1 p.2)

/-- One collector iteration: `out[r.Index] = r` (`List.set` is the
in-place slice write; C10 proves the index is always in bounds). -/
def collectStep (out : List ValidateResult) (r : ValidateResult) : List ValidateResult :=
  out.set r.index r

/-- The collector: `out := make([]ValidateResult, n)` followed by `n`
receives, writing each received result at its carried index.  `arrivals`
is the order in which the `n` results come off the channel. -/
def collect (n : Nat) (arrivals : List ValidateResult) : List ValidateResult :=
  arrivals.foldl collectStep (List.replicate n zeroResult)

/-- Go `bulkValidateWithWorkerPool`.  The worker count `workers` bounds
parallelism only; the data flow is: every job is validated exactly once
and the collector receives the outcomes in some arrival order (a
permutation of `batchOutcomes customers`, supplied as a hypothesis in
the theorems) and scatters them into the pre-sized result slice. -/
def bulkValidateWithWorkerPool (customers : List CustomerPayload) (workers : Nat)
    (arrivals : List ValidateResult) : List ValidateResult :=
  collect customers.length arrivals

/-- Number of worker goroutines started by one call: the loop
`for w := 0; w < workers; w++ { go ... }` runs before the producer and
does not inspect the batch, so it spawns `workers` goroutines even for
an empty batch. -/
def spawnedWorkers (customers : List CustomerPayload) (workers : Nat) : Nat :=
  workers

/-- Worker-count clamping in the `POST /customers/bulk-validate` handler:
`if workers <= 0 { workers = 5 }; if workers > 20 { workers = 20 }`. -/
def resolveWorkers (requested : Int) : Int :=
  let w := if requested ≤ 0 then 5 else requested
  if w > 20 then 20 else w

/-- Whether a string starts or ends with a White_Space character. -/
def hasEdgeSpace (l : List Char) : Bool :=
  l.head?.any isGoSpace || l.getLast?.any isGoSpace

/-! ### Helper lemmas about the validator -/

/-- A string has at least as many UTF-8 bytes as characters. -/
lemma length_le_utf8Length (l : List Char) : l.length ≤ utf8Length l := by
  induction l with
  | nil => simp [utf8Length]
  | cons c t ih =>
    have := Char.utf8Size_pos c
    simp only [utf8Length, List.map_cons, List.sum_cons, List.length_cons] at ih ⊢
    omega

/-- The validator either accepts with an empty message or rejects with a
non-empty one. -/
lemma validateCustomer_cases (c : CustomerPayload) :
    validateCustomer c = (true, []) ∨
    ∃ m, validateCustomer c = (false, m) ∧ m ≠ [] := by
  unfold validateCustomer
  split
  · exact Or.inr ⟨msgFullNameRequired, rfl, by decide⟩
  split
  · exact Or.inr ⟨msgEmailRequired, rfl, by decide⟩
  split
  · exact Or.inr ⟨msgEmailMustContainAt, rfl, by decide⟩
  split
  · exact Or.inr ⟨msgEmailTooLong, rfl, by decide⟩
  split
  · exact Or.inr ⟨msgExampleNotAllowed, rfl, by decide⟩
  exact Or.inl rfl

/-- Dropping a leading White_Space character strictly shortens a string. -/
lemma dropWhile_space_length_lt (m : List Char) (hm : m.head?.any isGoSpace = true) :
    (m.dropWhile isGoSpace).length < m.length := by
  cases m with
  | nil => cases hm
  | cons a t =>
    have ha : isGoSpace a = true := by simpa using hm
    rw [List.dropWhile_cons_of_pos ha]
    exact Nat.lt_succ_of_le (List.dropWhile_sublist _).length_le

/-- Trimming a string with a leading or trailing White_Space character
strictly shortens it. -/
lemma goTrimSpace_length_lt (l : List Char) (h : hasEdgeSpace l = true) :
    (goTrimSpace l).length < l.length := by
  rw [hasEdgeSpace, Bool.or_eq_true] at h
  rcases h with h | h
  · have h1 : (goTrimSpace l).length ≤ (l.dropWhile isGoSpace).length := by
      simp only [goTrimSpace, List.length_reverse]
      exact le_trans (List.dropWhile_sublist _).length_le (by simp)
    exact lt_of_le_of_lt h1 (dropWhile_space_length_lt l h)
  · have hrev : l.reverse.head?.any isGoSpace = true := by
      rw [List.head?_reverse]; exact h
    by_cases hh : l.head?.any isGoSpace = true
    · have h1 : (goTrimSpace l).length ≤ (l.dropWhile isGoSpace).length := by
        simp only [goTrimSpace, List.length_reverse]
        exact le_trans (List.dropWhile_sublist _).length_le (by simp)
      exact lt_of_le_of_lt h1 (dropWhile_space_length_lt l hh)
    · have hdrop : l.dropWhile isGoSpace = l := by
        cases l with
        | nil => rfl
        | cons a t =>
          have ha : ¬ isGoSpace a = true := by simpa using hh
          exact List.dropWhile_cons_of_neg ha
      calc (goTrimSpace l).length
          = (l.reverse.dropWhile isGoSpace).length := by
            simp only [goTrimSpace, hdrop, List.length_reverse]
        _ < l.reverse.length := dropWhile_space_length_lt l.reverse hrev
        _ = l.length := List.length_reverse l

/-! ### Helper lemmas about the collector -/

/-- Scatter writes preserve the length of the result slice. -/
lemma length_foldl_collectStep (l : List ValidateResult) (out : List ValidateResult) :
    (l.foldl collectStep out).length = out.length := by
  induction l generalizing out with
  | nil => rfl
  | cons r t ih => simp [collectStep, ih]

/-- The collector returns a slice of the requested size. -/
lemma collect_length (n : Nat) (l : List ValidateResult) : (collect n l).length = n := by
  simp [collect, length_foldl_collectStep]

/-- A slot no arriving outcome points at keeps its previous value. -/
lemma foldl_collectStep_getElem_of_notMem (l : List ValidateResult)
    (out : List ValidateResult) (i : Nat) (h : ∀ r ∈ l, r.index ≠ i) :
    (l.foldl collectStep out)[i]? = out[i]? := by
  induction l generalizing out with
  | nil => rfl
  | cons r t ih =>
    rw [List.foldl_cons, ih _ (fun r' hr' => h r' (List.mem_cons_of_mem _ hr'))]
    exact List.getElem?_set_ne (h r (List.mem_cons_self ..))

/-- When the arriving outcomes carry pairwise distinct indices, each
outcome ends up stored at its own slot. -/
lemma foldl_collectStep_getElem_of_mem (l : List ValidateResult)
    (out : List ValidateResult) (r : ValidateResult)
    (hp : l.Pairwise (fun a b => a.index ≠ b.index)) (hr : r ∈ l)
    (hlt : r.index < out.length) :
    (l.foldl collectStep out)[r.index]? = some r := by
  induction l generalizing out with
  | nil => cases hr
  | cons a t ih =>
    rcases List.mem_cons.mp hr with h | h
    · subst h
      rw [List.foldl_cons,
        foldl_collectStep_getElem_of_notMem t _ r.index
          (fun r' hr' => ((List.pairwise_cons.mp hp).1 r' hr').symm)]
      simpa [collectStep] using List.getElem?_set_self hlt
    · rw [List.foldl_cons]
      exact ih _ (List.pairwise_cons.mp hp).2 h (by simpa [collectStep] using hlt)

/-! ### Helper lemmas about the produced outcomes -/

/-- One outcome per input record. -/
lemma batchOutcomes_length (cs : List CustomerPayload) :
    (batchOutcomes cs).length = cs.length := by
  simp [batchOutcomes]

/-- The outcome produced for the job at position `i` is
`workerOutcome i cs[i]`. -/
lemma batchOutcomes_getElem (cs : List CustomerPayload) (i : Nat) (h : i < cs.length) :
    (batchOutcomes cs)[i]? = some (workerOutcome i (cs[i])) := by
  simp [batchOutcomes, List.getElem?_eq_getElem h]

/-- Every produced outcome is the outcome of its own position. -/
lemma batchOutcomes_mem (cs : List CustomerPayload) (r : ValidateResult)
    (hr : r ∈ batchOutcomes cs) :
    r.index < cs.length ∧ ∃ h : r.index < cs.length, r = workerOutcome r.index (cs[r.index]) := by
  rcases List.mem_iff_getElem?.mp hr with ⟨i, hi⟩
  have hilen : i < cs.length := by
    have := List.getElem?_eq_some.mp hi
    simpa [batchOutcomes_length] using this.1
  rw [batchOutcomes_getElem cs i hilen] at hi
  have hri : r = workerOutcome i (cs[i]) := (Option.some_injective _ hi.symm :)
  have hidx : r.index = i := by rw [hri]; rfl
  subst hidx
  exact ⟨hilen, hilen, hri⟩

/-- Indices of the produced outcomes are pairwise distinct. -/
lemma batchOutcomes_pairwise (cs : List CustomerPayload) :
    (batchOutcomes cs).Pairwise (fun a b => a.index ≠ b.index) := by
  have h : ∀ n, (cs.enumFrom n).Pairwise (fun a b => a.1 ≠ b.1) := by
    induction cs with
    | nil => intro n; simp
    | cons c t ih =>
      intro n
      rw [List.enumFrom_cons, List.pairwise_cons]
      refine ⟨fun p hp => ?_, ih (n + 1)⟩
      rcases List.mem_iff_getElem?.mp hp with ⟨i, hi⟩
      have hilen : i < t.length := by
        have := List.getElem?_eq_some.mp hi
        simpa using this.1
      rw [List.getElem?_enumFrom, List.getElem?_eq_getElem hilen] at hi
      have : p = (n + 1 + i, t[i]) := by simpa using hi.symm
      simp [this]
      omega
  have h0 := h 0
  unfold batchOutcomes
  rw [List.pairwise_map]
  exact h0.imp (by intro a b hab; simpa [workerOutcome] using hab)

/-- The central lemma: whatever order the outcomes arrive in, the
collector reconstructs the in-order outcome list. -/
lemma collect_perm_eq (cs : List CustomerPayload) (l : List ValidateResult)
    (h : l.Perm (batchOutcomes cs)) :
    collect cs.length l = batchOutcomes cs := by
  have hpl : l.Pairwise (fun a b => a.index ≠ b.index) :=
    (h.pairwise_iff fun hab => Ne.symm hab).mpr (batchOutcomes_pairwise cs)
  apply List.ext_getElem?
  intro i
  by_cases hi : i < cs.length
  · have hmem : workerOutcome i (cs[i]) ∈ batchOutcomes cs :=
      List.mem_iff_getElem?.mpr ⟨i, batchOutcomes_getElem cs i hi⟩
    have hmeml : workerOutcome i (cs[i]) ∈ l := h.mem_iff.mpr hmem
    have hidx : (workerOutcome i (cs[i])).index = i := rfl
    have := foldl_collectStep_getElem_of_mem l (List.replicate cs.length zeroResult)
      (workerOutcome i (cs[i])) hpl hmeml (by simpa [hidx])
    rw [collect, batchOutcomes_getElem cs i hi]
    exact this
  · rw [List.getElem?_eq_none (by rw [collect_length]; omega),
      List.getElem?_eq_none (by rw [batchOutcomes_length]; omega)]

/-! ### Demonstration inputs -/

/-- A two-record demonstration batch. -/
def demoBatch : List CustomerPayload :=
  [⟨"Alice".toList, "alice@acme.io".toList⟩, ⟨[], "a@b.com".toList⟩]

/-- The outcomes of `demoBatch` arriving in reversed order (the second
job finishing before the first). -/
def demoArrivals : List ValidateResult := (batchOutcomes demoBatch).reverse

/-! ### Claim theorems -/

/-- C1: for every batch and worker count, the result of
`bulkValidateWithWorkerPool` has the same length as the input batch, and
the outcome at every position `i` carries index `i`: input order is
preserved in the output. -/
theorem bulkValidate_preserves_order (customers : List CustomerPayload) (workers : Nat)
    (arrivals : List ValidateResult) (h : arrivals.Perm (batchOutcomes customers)) :
    (bulkValidateWithWorkerPool customers workers arrivals).length = customers.length ∧
    ∀ i (hi : i < (bulkValidateWithWorkerPool customers workers arrivals).length),
      (bulkValidateWithWorkerPool customers workers arrivals)[i].index = i := by
  have hb : bulkValidateWithWorkerPool customers workers arrivals = batchOutcomes customers :=
    collect_perm_eq customers arrivals h
  constructor
  · rw [hb, batchOutcomes_length]
  · intro i hi
    have hilen : i < customers.length := by
      rw [hb, batchOutcomes_length] at hi; exact hi
    have hsome : (bulkValidateWithWorkerPool customers workers arrivals)[i]? =
        some (workerOutcome i (customers[i])) := by
      rw [hb]; exact batchOutcomes_getElem customers i hilen
    rw [List.getElem?_eq_getElem hi] at hsome
    rw [Option.some_inj.mp hsome]
    rfl

/-- C1 witness: a concrete two-record batch with reversed arrival order. -/
theorem bulkValidate_preserves_order_demo :
    (bulkValidateWithWorkerPool demoBatch 3 demoArrivals).length = demoBatch.length ∧
    ∀ i (hi : i < (bulkValidateWithWorkerPool demoBatch 3 demoArrivals).length),
      (bulkValidateWithWorkerPool demoBatch 3 demoArrivals)[i].index = i :=
  bulkValidate_preserves_order demoBatch 3 demoArrivals
    (List.reverse_perm (batchOutcomes demoBatch))

/-- C2: for a fixed batch the result is identical for any two worker
counts in `[1, 20]` and any two arrival orders: the output depends only
on the input records, not on the concurrency configuration. -/
theorem bulkValidate_deterministic (customers : List CustomerPayload)
    (w1 w2 : Nat) (a1 a2 : List ValidateResult)
    (hw1 : 1 ≤ w1) (hw1u : w1 ≤ 20) (hw2 : 1 ≤ w2) (hw2u : w2 ≤ 20)
    (h1 : a1.Perm (batchOutcomes customers)) (h2 : a2.Perm (batchOutcomes customers)) :
    bulkValidateWithWorkerPool customers w1 a1 = bulkValidateWithWorkerPool customers w2 a2 := by
  have e1 : bulkValidateWithWorkerPool customers w1 a1 = batchOutcomes customers :=
    collect_perm_eq customers a1 h1
  have e2 : bulkValidateWithWorkerPool customers w2 a2 = batchOutcomes customers :=
    collect_perm_eq customers a2 h2
  rw [e1, e2]

/-- C2 witness: one worker with in-order arrivals versus twenty workers
with reversed arrivals give the same result on the demonstration batch. -/
theorem bulkValidate_deterministic_demo :
    bulkValidateWithWorkerPool demoBatch 1 (batchOutcomes demoBatch) =
      bulkValidateWithWorkerPool demoBatch 20 demoArrivals :=
  bulkValidate_deterministic demoBatch 1 20 (batchOutcomes demoBatch) demoArrivals
    (by decide) (by decide) (by decide) (by decide)
    (List.Perm.refl _) (List.reverse_perm _)

/-- C8: the batch call never fails as a whole: it returns a full-length
result in which every record's slot holds that record's outcome value,
so every per-record validation failure is data, not an escaping error. -/
theorem bulkValidate_no_batch_error (customers : List CustomerPayload) (workers : Nat)
    (arrivals : List ValidateResult) (h : arrivals.Perm (batchOutcomes customers)) :
    (bulkValidateWithWorkerPool customers workers arrivals).length = customers.length ∧
    ∀ i (hi : i < customers.length),
      (bulkValidateWithWorkerPool customers workers arrivals)[i]? =
        some (workerOutcome i (customers[i])) := by
  have hb : bulkValidateWithWorkerPool customers workers arrivals = batchOutcomes customers :=
    collect_perm_eq customers arrivals h
  refine ⟨by rw [hb, batchOutcomes_length], fun i hi => ?_⟩
  rw [hb]
  exact batchOutcomes_getElem customers i hi

/-- C8 witness: the demonstration batch, whose second record fails
validation, still yields a complete result with its failure as data. -/
theorem bulkValidate_no_batch_error_demo :
    (bulkValidateWithWorkerPool demoBatch 3 demoArrivals).length = demoBatch.length ∧
    ∀ i (hi : i < demoBatch.length),
      (bulkValidateWithWorkerPool demoBatch 3 demoArrivals)[i]? =
        some (workerOutcome i (demoBatch[i])) :=
  bulkValidate_no_batch_error demoBatch 3 demoArrivals
    (List.reverse_perm (batchOutcomes demoBatch))

/-- C10: every outcome that can arrive at the collector carries an index
below the batch length, and the indices of the arrivals are pairwise
distinct, so each write `out[r.Index] = r` is in bounds and never
overwrites a previously written outcome. -/
theorem collector_indices_safe (customers : List CustomerPayload)
    (arrivals : List ValidateResult) (h : arrivals.Perm (batchOutcomes customers)) :
    (∀ r ∈ arrivals, r.index < customers.length) ∧
    arrivals.Pairwise (fun a b => a.index ≠ b.index) := by
  refine ⟨fun r hr => (batchOutcomes_mem customers r (h.subset hr)).1, ?_⟩
  exact (h.pairwise_iff fun hab => Ne.symm hab).mpr (batchOutcomes_pairwise customers)

/-- C10 witness: the demonstration arrivals have in-bounds, pairwise
distinct indices. -/
theorem collector_indices_safe_demo :
    (∀ r ∈ demoArrivals, r.index < demoBatch.length) ∧
    demoArrivals.Pairwise (fun a b => a.index ≠ b.index) :=
  collector_indices_safe demoBatch demoArrivals
    (List.reverse_perm (batchOutcomes demoBatch))

/-- C3: the validator applies its rules in strict precedence order with
short-circuit: the first failing rule among (1) trimmed full name empty,
(2) trimmed email empty, (3) email without `'@'`, (4) email too long,
(5) email case-insensitively ending in `"@example.com"` determines the
outcome, and a record passing all five is valid. -/
theorem validateCustomer_rule_precedence (c : CustomerPayload) :
    (goTrimSpace c.fullName = [] → validateCustomer c = (false, msgFullNameRequired)) ∧
    (goTrimSpace c.fullName ≠ [] → goTrimSpace c.email = [] →
      validateCustomer c = (false, msgEmailRequired)) ∧
    (goTrimSpace c.fullName ≠ [] → goTrimSpace c.email ≠ [] →
      (goTrimSpace c.email).contains '@' = false →
      validateCustomer c = (false, msgEmailMustContainAt)) ∧
    (goTrimSpace c.fullName ≠ [] → goTrimSpace c.email ≠ [] →
      (goTrimSpace c.email).contains '@' = true →
      150 < utf8Length (goTrimSpace c.email) →
      validateCustomer c = (false, msgEmailTooLong)) ∧
    (goTrimSpace c.fullName ≠ [] → goTrimSpace c.email ≠ [] →
      (goTrimSpace c.email).contains '@' = true →
      utf8Length (goTrimSpace c.email) ≤ 150 →
      atExampleCom.isSuffixOf (goToLower (goTrimSpace c.email)) = true →
      validateCustomer c = (false, msgExampleNotAllowed)) ∧
    (goTrimSpace c.fullName ≠ [] → goTrimSpace c.email ≠ [] →
      (goTrimSpace c.email).contains '@' = true →
      utf8Length (goTrimSpace c.email) ≤ 150 →
      atExampleCom.isSuffixOf (goToLower (goTrimSpace c.email)) = false →
      validateCustomer c = (true, [])) := by
  refine ⟨fun h1 => ?_, fun h1 h2 => ?_, fun h1 h2 h3 => ?_, fun h1 h2 h3 h4 => ?_,
    fun h1 h2 h3 h4 h5 => ?_, fun h1 h2 h3 h4 h5 => ?_⟩
  · simp [validateCustomer, h1]
  · simp [validateCustomer, h1, h2]
  · have h3m : '@' ∉ goTrimSpace c.email := by simpa using h3
    simp [validateCustomer, h1, h2, h3m]
  · have h3m : '@' ∈ goTrimSpace c.email := by simpa using h3
    simp [validateCustomer, h1, h2, h3m, h4]
  · have h3m : '@' ∈ goTrimSpace c.email := by simpa using h3
    simp [validateCustomer, h1, h2, h3m, Nat.not_lt.mpr h4, h5]
  · have h3m : '@' ∈ goTrimSpace c.email := by simpa using h3
    simp [validateCustomer, h1, h2, h3m, Nat.not_lt.mpr h4, h5]

/-- C3 witness: the five precedence scenarios of the specification. -/
theorem validateCustomer_rule_precedence_demo :
    validateCustomer ⟨[], "a@b.com".toList⟩ = (false, msgFullNameRequired) ∧
    validateCustomer ⟨"A".toList, []⟩ = (false, msgEmailRequired) ∧
    validateCustomer ⟨"A".toList, "no-at-sign".toList⟩ = (false, msgEmailMustContainAt) ∧
    validateCustomer ⟨"A".toList, "x@example.com".toList⟩ = (false, msgExampleNotAllowed) ∧
    validateCustomer ⟨"A".toList, "a@b.com".toList⟩ = (true, []) :=
  ⟨(validateCustomer_rule_precedence _).1 (by decide),
   (validateCustomer_rule_precedence _).2.1 (by decide) (by decide),
   (validateCustomer_rule_precedence _).2.2.1 (by decide) (by decide) (by decide),
   (validateCustomer_rule_precedence _).2.2.2.2.1 (by decide) (by decide) (by decide)
     (by decide) (by decide),
   (validateCustomer_rule_precedence _).2.2.2.2.2 (by decide) (by decide) (by decide)
     (by decide) (by decide)⟩

/-- C4: the handler's worker-count clamping: a request of at most zero
resolves to five, a request above twenty resolves to twenty, a request
already in `[1, 20]` is used unchanged, and the resolved count always
lies in `[1, 20]` (the clamp is a total function, never an error). -/
theorem resolveWorkers_clamps (r : Int) :
    (r ≤ 0 → resolveWorkers r = 5) ∧
    (20 < r → resolveWorkers r = 20) ∧
    (1 ≤ r → r ≤ 20 → resolveWorkers r = r) ∧
    1 ≤ resolveWorkers r ∧ resolveWorkers r ≤ 20 := by
  refine ⟨fun h => ?_, fun h => ?_, fun h1 h2 => ?_, ?_, ?_⟩ <;>
    · simp only [resolveWorkers]
      split_ifs <;> omega

/-- C4 witness: a zero-or-negative, an oversized, and an in-range
request. -/
theorem resolveWorkers_clamps_demo :
    resolveWorkers (-3) = 5 ∧ resolveWorkers 25 = 20 ∧ resolveWorkers 7 = 7 :=
  ⟨(resolveWorkers_clamps (-3)).1 (by decide),
   (resolveWorkers_clamps 25).2.1 (by decide),
   (resolveWorkers_clamps 7).2.2.1 (by decide) (by decide)⟩

/-- C5: a record with non-empty trimmed full name and a non-empty
trimmed email containing `'@'` but longer than 150 characters is
rejected with `"email too long"` (Go's `len` counts UTF-8 bytes, and a
string of more than 150 characters occupies more than 150 bytes). -/
theorem validateCustomer_email_too_long (c : CustomerPayload)
    (hname : goTrimSpace c.fullName ≠ [])
    (hemail : goTrimSpace c.email ≠ [])
    (hat : (goTrimSpace c.email).contains '@' = true)
    (hlong : 150 < (goTrimSpace c.email).length) :
    validateCustomer c = (false, msgEmailTooLong) := by
  have hbytes : 150 < utf8Length (goTrimSpace c.email) :=
    lt_of_lt_of_le hlong (length_le_utf8Length _)
  have hatm : '@' ∈ goTrimSpace c.email := by simpa using hat
  simp [validateCustomer, hname, hemail, hatm, hbytes]

set_option maxRecDepth 8000 in
/-- C5 witness: a 155-character email (151 letters and `"@b.c"`). -/
theorem validateCustomer_email_too_long_demo :
    validateCustomer ⟨"A".toList, List.replicate 151 'a' ++ "@b.c".toList⟩ =
      (false, msgEmailTooLong) :=
  validateCustomer_email_too_long ⟨"A".toList, List.replicate 151 'a' ++ "@b.c".toList⟩
    (by decide) (by decide) (by decide) (by decide)

/-- C6: an outcome carries a non-empty message exactly when it is
invalid; a valid outcome carries no message. -/
theorem outcome_message_iff_invalid (i : Nat) (c : CustomerPayload) :
    ((workerOutcome i c).message ≠ [] ↔ (workerOutcome i c).valid = false) := by
  rcases validateCustomer_cases c with h | ⟨m, h, hm⟩
  · simp [workerOutcome, h]
  · simp [workerOutcome, h, hm]

/-- C7 counterexample: the worker-spawning loop runs before the producer
and does not inspect the batch, so an empty batch with the default five
workers still spawns five worker goroutines, not zero. -/
theorem emptyBatch_spawns_workers_anyway :
    spawnedWorkers ([] : List CustomerPayload) 5 = 5 ∧
    spawnedWorkers ([] : List CustomerPayload) 5 ≠ 0 :=
  ⟨rfl, by decide⟩

/-- C7 amended: a batch of size 0 returns an empty result with no
outcomes to collect (the collector loop runs zero iterations, so the
call does not block on results), but the configured number of worker
goroutines is still spawned. -/
theorem emptyBatch_returns_empty (workers : Nat) :
    bulkValidateWithWorkerPool [] workers [] = [] ∧
    spawnedWorkers [] workers = workers :=
  ⟨rfl, rfl⟩

/-- C9: the email carried in an outcome is the record's input email with
surrounding White_Space trimmed, and when the input email has a leading
or trailing White_Space character the carried email differs from the
raw input. -/
theorem outcome_email_is_trimmed (i : Nat) (c : CustomerPayload) :
    (workerOutcome i c).email = goTrimSpace c.email ∧
    (hasEdgeSpace c.email = true → (workerOutcome i c).email ≠ c.email) := by
  refine ⟨rfl, fun h heq => ?_⟩
  have hlt := goTrimSpace_length_lt c.email h
  have hem : (workerOutcome i c).email = goTrimSpace c.email := rfl
  rw [hem] at heq
  rw [heq] at hlt
  exact lt_irrefl _ hlt

/-- C9 witness: an email with surrounding blanks comes back trimmed,
hence different from the raw input. -/
theorem outcome_email_is_trimmed_demo :
    (workerOutcome 0 ⟨"A".toList, " a@b.com ".toList⟩).email ≠ " a@b.com ".toList :=
  (outcome_email_is_trimmed 0 ⟨"A".toList, " a@b.com ".toList⟩).2 (by decide)

end GoPlayground
